import Mathlib

/-!
Verification of the metric-computation and no-data-masking logic of
`instageo/model/run.py` (`PrithviSegmentationModule.compute_metrics` and the
`sliding_inference` branch of `main`).

Modelling choices:
* `pred_mask` and `gt_mask` enter `compute_metrics` as tensors; after
  `torch.argmax` and `masked_select` both are flat integer arrays.  We embed
  them as `List ℤ` (the prediction already after `argmax`) and the pair of
  `masked_select` calls with mask `gt_mask.ne(ignore_index)` as a filter over
  the zipped lists.
* numpy float arithmetic on these small integer counts is exact, so metric
  values live in `ℚ`.  The one place numpy can produce NaN is the unguarded
  division `np.sum(pred_mask == gt_mask) / gt_mask.size` when the size is
  zero (`0/0` → NaN with a RuntimeWarning, no exception); we embed that
  division as an `Option ℚ` where `none` stands for NaN.
* `np.where(nan_mask == 1, np.nan, prediction)` likewise produces `Option ℚ`
  pixels, `none` standing for NaN.
-/

namespace InstaGeo

/-- Insert an integer into a (sorted) list, keeping `≤`-order. -/
def insertSorted (x : ℤ) : List ℤ → List ℤ
  | [] => [x]
  | y :: ys => if x ≤ y then x :: y :: ys else y :: insertSorted x ys

/-- Insertion sort on integer lists. -/
def sortInts : List ℤ → List ℤ
  | [] => []
  | x :: xs => insertSorted x (sortInts xs)

/-- `np.unique`: the distinct values of an array, in ascending order. -/
def npUnique (l : List ℤ) : List ℤ := sortInts l.dedup

/-- The pixels kept by `masked_select` with mask `gt_mask.ne(ignore_index)`
(run.py lines 237–239), as (prediction, ground-truth) pairs. -/
def keptPairs (pred gt : List ℤ) (ignore : ℤ) : List (ℤ × ℤ) :=
  (pred.zip gt).filter (fun pg => pg.2 ≠ ignore)

/-- `classes = np.unique(np.concatenate((gt_mask, pred_mask)))` over the kept
pixels (run.py line 240). -/
def classUniverse (pairs : List (ℤ × ℤ)) : List ℤ :=
  npUnique (pairs.map Prod.snd ++ pairs.map Prod.fst)

/-- `true_positive = np.sum(np.logical_and(pred_cls, gt_cls))` (line 253). -/
def tpOf (pairs : List (ℤ × ℤ)) (c : ℤ) : ℕ :=
  pairs.countP (fun pg => pg.1 = c ∧ pg.2 = c)

/-- `np.sum(union)` where `union = np.logical_or(pred_cls, gt_cls)` (line 252). -/
def unionOf (pairs : List (ℤ × ℤ)) (c : ℤ) : ℕ :=
  pairs.countP (fun pg => pg.1 = c ∨ pg.2 = c)

/-- `np.sum(pred_cls)`: pixels predicted as class `c`. -/
def predCount (pairs : List (ℤ × ℤ)) (c : ℤ) : ℕ :=
  pairs.countP (fun pg => pg.1 = c)

/-- `np.sum(gt_cls)`: ground-truth pixels of class `c`. -/
def gtCount (pairs : List (ℤ × ℤ)) (c : ℤ) : ℕ :=
  pairs.countP (fun pg => pg.2 = c)

/-- `false_positive = np.sum(pred_cls) - true_positive` (line 254). -/
def falsePositive (pairs : List (ℤ × ℤ)) (c : ℤ) : ℤ :=
  (predCount pairs c : ℤ) - (tpOf pairs c : ℤ)

/-- `false_negative = np.sum(gt_cls) - true_positive` (line 255). -/
def falseNegative (pairs : List (ℤ × ℤ)) (c : ℤ) : ℤ :=
  (gtCount pairs c : ℤ) - (tpOf pairs c : ℤ)

/-- `iou = np.sum(intersection) / np.sum(union)` (line 258); only evaluated
under the guard `np.any(union)`, where the denominator is positive. -/
def iouOf (pairs : List (ℤ × ℤ)) (c : ℤ) : ℚ :=
  (tpOf pairs c : ℚ) / (unionOf pairs c : ℚ)

/-- `accuracy = true_positive / np.sum(gt_cls) if np.sum(gt_cls) > 0 else 0`
(line 261). -/
def accOf (pairs : List (ℤ × ℤ)) (c : ℤ) : ℚ :=
  if 0 < gtCount pairs c then (tpOf pairs c : ℚ) / (gtCount pairs c : ℚ) else 0

/-- `precision = tp / (tp + fp) if (tp + fp) > 0 else 0` (lines 264–268). -/
def precisionOf (pairs : List (ℤ × ℤ)) (c : ℤ) : ℚ :=
  if 0 < (tpOf pairs c : ℤ) + falsePositive pairs c then
    (tpOf pairs c : ℚ) / (((tpOf pairs c : ℤ) + falsePositive pairs c : ℤ) : ℚ)
  else 0

/-- `recall = tp / (tp + fn) if (tp + fn) > 0 else 0` (lines 271–275). -/
def recallOf (pairs : List (ℤ × ℤ)) (c : ℤ) : ℚ :=
  if 0 < (tpOf pairs c : ℤ) + falseNegative pairs c then
    (tpOf pairs c : ℚ) / (((tpOf pairs c : ℤ) + falseNegative pairs c : ℤ) : ℚ)
  else 0

/-- The `iou_per_class` list: an entry is appended only under the guard
`if np.any(union)` (lines 257–259). -/
def iouPerClass (pairs : List (ℤ × ℤ)) : List ℚ :=
  (classUniverse pairs).filterMap
    (fun c => if 0 < unionOf pairs c then some (iouOf pairs c) else none)

/-- numpy true division of two counts where the numerator never exceeds the
denominator: when the denominator is zero numpy returns NaN (`0/0`), which we
model as `none`. -/
def npDiv (a b : ℕ) : Option ℚ :=
  if b = 0 then none else some ((a : ℚ) / (b : ℚ))

/-- The dictionary returned by `compute_metrics` (lines 281–288). -/
structure MetricReport where
  iou : ℚ
  acc : Option ℚ
  acc_per_class : List ℚ
  iou_per_class : List ℚ
  precision_per_class : List ℚ
  recall_per_class : List ℚ
  deriving Repr, DecidableEq

/-- `PrithviSegmentationModule.compute_metrics` (run.py lines 233–288),
taking the prediction after `argmax` and the ground truth as flat integer
lists together with the module's `ignore_index`. -/
def compute_metrics (pred gt : List ℤ) (ignore : ℤ) : MetricReport :=
  let pairs := keptPairs pred gt ignore
  let classes := classUniverse pairs
  let iouList := iouPerClass pairs
  { iou := if iouList = [] then 0 else iouList.sum / (iouList.length : ℚ)
    acc := npDiv (pairs.countP (fun pg => pg.1 = pg.2)) pairs.length
    acc_per_class := classes.map (accOf pairs)
    iou_per_class := iouList
    precision_per_class := classes.map (precisionOf pairs)
    recall_per_class := classes.map (recallOf pairs) }

/-- `nan_mask = hls_tile == no_data_value; nan_mask = np.any(nan_mask, axis=0)`
(run.py lines 505–506).  The tile is represented pixel-major: one list of
channel values per pixel, so `np.any` over the channel axis becomes `List.any`
per pixel. -/
def nanMask (tilePixels : List (List ℤ)) (noData : ℤ) : List Bool :=
  tilePixels.map (fun chans => chans.any (fun v => v = noData))

/-- `prediction = np.where(nan_mask == 1, np.nan, prediction)` (run.py line
523); `none` models NaN. -/
def maskPrediction (tilePixels : List (List ℤ)) (noData : ℤ)
    (prediction : List ℚ) : List (Option ℚ) :=
  (nanMask tilePixels noData).zipWith
    (fun m p => if m then none else some p) prediction

/-! ### Helper lemmas about `npUnique` and the class universe -/

theorem insertSorted_perm (x : ℤ) (l : List ℤ) :
    List.Perm (insertSorted x l) (x :: l) := by
  induction l with
  | nil => exact List.Perm.refl _
  | cons y ys ih =>
      by_cases h : x ≤ y
      · simp [insertSorted, h]
      · rw [insertSorted, if_neg h]
        exact (ih.cons y).trans (List.Perm.swap x y ys)

theorem sortInts_perm (l : List ℤ) : List.Perm (sortInts l) l := by
  induction l with
  | nil => exact List.Perm.refl _
  | cons x xs ih => exact (insertSorted_perm x (sortInts xs)).trans (ih.cons x)

theorem mem_sortInts {a : ℤ} {l : List ℤ} : a ∈ sortInts l ↔ a ∈ l :=
  (sortInts_perm l).mem_iff

theorem sorted_insertSorted (x : ℤ) {l : List ℤ} (h : l.Sorted (· ≤ ·)) :
    (insertSorted x l).Sorted (· ≤ ·) := by
  induction l with
  | nil => simp [insertSorted]
  | cons y ys ih =>
      rw [List.sorted_cons] at h
      by_cases hxy : x ≤ y
      · rw [insertSorted, if_pos hxy, List.sorted_cons]
        refine ⟨?_, List.sorted_cons.mpr h⟩
        intro b hb
        rcases List.mem_cons.mp hb with rfl | hb
        · exact hxy
        · exact le_trans hxy (h.1 b hb)
      · rw [insertSorted, if_neg hxy, List.sorted_cons]
        refine ⟨?_, ih h.2⟩
        intro b hb
        rcases List.mem_cons.mp ((insertSorted_perm x ys).mem_iff.mp hb) with
          rfl | hb
        · exact le_of_not_le hxy
        · exact h.1 b hb

theorem sorted_sortInts (l : List ℤ) : (sortInts l).Sorted (· ≤ ·) := by
  induction l with
  | nil => simp [sortInts]
  | cons x xs ih => exact sorted_insertSorted x ih

theorem mem_npUnique {a : ℤ} {l : List ℤ} : a ∈ npUnique l ↔ a ∈ l := by
  rw [npUnique, mem_sortInts, List.mem_dedup]

theorem nodup_npUnique (l : List ℤ) : (npUnique l).Nodup :=
  ((sortInts_perm l.dedup).nodup_iff).mpr l.nodup_dedup

theorem sorted_lt_npUnique (l : List ℤ) : (npUnique l).Sorted (· < ·) :=
  (sorted_sortInts l.dedup).lt_of_le (nodup_npUnique l)

theorem mem_classUniverse {c : ℤ} {pairs : List (ℤ × ℤ)} :
    c ∈ classUniverse pairs ↔
      c ∈ pairs.map Prod.snd ∨ c ∈ pairs.map Prod.fst := by
  rw [classUniverse, mem_npUnique, List.mem_append]

/-- Every class of the universe is present in the prediction or the ground
truth, so its `union` is nonempty and `np.any(union)` is true.  This is why
the guard on line 257 of run.py can never exclude a class of the universe. -/
theorem unionOf_pos_of_mem {c : ℤ} {pairs : List (ℤ × ℤ)}
    (h : c ∈ classUniverse pairs) : 0 < unionOf pairs c := by
  rcases mem_classUniverse.mp h with h | h
  · rcases List.mem_map.mp h with ⟨pg, hpg, rfl⟩
    refine List.countP_pos_iff.mpr ⟨pg, hpg, ?_⟩
    simp
  · rcases List.mem_map.mp h with ⟨pg, hpg, rfl⟩
    refine List.countP_pos_iff.mpr ⟨pg, hpg, ?_⟩
    simp

/-- Consequence: `iou_per_class` never drops an entry; it is the pointwise
image of the class universe under `iouOf`. -/
theorem iouPerClass_eq_map (pairs : List (ℤ × ℤ)) :
    iouPerClass pairs = (classUniverse pairs).map (iouOf pairs) := by
  rw [iouPerClass, List.filterMap_eq_map_iff_forall_eq_some.mpr]
  intro c hc
  rw [if_pos (unionOf_pos_of_mem hc)]

/-- `tp + fn` always equals the ground-truth pixel count of the class,
because `false_negative = np.sum(gt_cls) - true_positive`. -/
theorem tp_add_fn (pairs : List (ℤ × ℤ)) (c : ℤ) :
    (tpOf pairs c : ℤ) + falseNegative pairs c = (gtCount pairs c : ℤ) := by
  rw [falseNegative]; ring

/-- `tp + fp` always equals the predicted pixel count of the class. -/
theorem tp_add_fp (pairs : List (ℤ × ℤ)) (c : ℤ) :
    (tpOf pairs c : ℤ) + falsePositive pairs c = (predCount pairs c : ℤ) := by
  rw [falsePositive]; ring

/-- Per-class accuracy and recall agree: `tp / np.sum(gt_cls)` with the
`np.sum(gt_cls) > 0` guard is the same number as `tp / (tp + fn)` with the
`(tp + fn) > 0` guard, since `fn = np.sum(gt_cls) - tp`. -/
theorem accOf_eq_recallOf (pairs : List (ℤ × ℤ)) (c : ℤ) :
    accOf pairs c = recallOf pairs c := by
  rw [accOf, recallOf, tp_add_fn]
  by_cases h : 0 < gtCount pairs c
  · rw [if_pos h, if_pos (by exact_mod_cast h)]
    norm_num
  · rw [if_neg h, if_neg (by exact_mod_cast h)]

theorem zip_self (m : List ℤ) : m.zip m = m.map (fun x => (x, x)) := by
  induction m with
  | nil => rfl
  | cons x xs ih => simpa [List.zip_cons_cons] using ih

/-- When no pixel of the mask carries the ignore value, comparing a mask with
itself keeps every pixel, as a diagonal pair. -/
theorem keptPairs_self (m : List ℤ) (ignore : ℤ) (h : ∀ x ∈ m, x ≠ ignore) :
    keptPairs m m ignore = m.map (fun x => (x, x)) := by
  rw [keptPairs, zip_self, List.filter_eq_self]
  intro pg hpg
  rcases List.mem_map.mp hpg with ⟨x, hx, rfl⟩
  simpa using h x hx

/-- When every ground-truth pixel carries the ignore value, `masked_select`
removes everything. -/
theorem keptPairs_all_ignored (pred gt : List ℤ) (ignore : ℤ)
    (h : ∀ x ∈ gt, x = ignore) : keptPairs pred gt ignore = [] := by
  rw [keptPairs, List.filter_eq_nil_iff]
  intro pg hpg
  have := (List.of_mem_zip hpg).2
  simpa using h pg.2 this

/-! ### C6, C7, C9 -/

/-- C6: the set of classes over which the per-class metrics are computed is
exactly the union of the distinct values present in `pred_mask` and in
`gt_mask` after pixels whose ground truth equals the ignore value are removed
from both masks (and it carries no duplicates); it is derived from the data,
not from a configured class count. -/
theorem C6_class_universe (pred gt : List ℤ) (ignore c : ℤ) :
    (c ∈ classUniverse (keptPairs pred gt ignore) ↔
        c ∈ (keptPairs pred gt ignore).map Prod.fst ∨
          c ∈ (keptPairs pred gt ignore).map Prod.snd) ∧
      (classUniverse (keptPairs pred gt ignore)).Nodup := by
  refine ⟨?_, nodup_npUnique _⟩
  rw [mem_classUniverse, or_comm]

/-- Witness for C6 (its statement is hypothesis-free, but we record a
concrete instance anyway): on `pred = [0,1]`, `gt = [0,0]`, class `1` is in
the universe because it occurs in the prediction. -/
theorem C6_class_universe_witness :
    (1 : ℤ) ∈ classUniverse (keptPairs [0, 1] [0, 0] (-100)) :=
  (C6_class_universe [0, 1] [0, 0] (-100) 1).1.mpr
    (Or.inl (by decide))

/-- C7: for any class, when the precision denominator `tp + fp` is zero the
reported precision is zero, and when the recall denominator `tp + fn` is zero
the reported recall is zero; both are total computations (no exception, no
undefined value), and the reported vectors are exactly the pointwise
`precisionOf`/`recallOf` images of the class universe. -/
theorem C7_zero_denominators (pred gt : List ℤ) (ignore c : ℤ) :
    ((tpOf (keptPairs pred gt ignore) c : ℤ) +
          falsePositive (keptPairs pred gt ignore) c = 0 →
        precisionOf (keptPairs pred gt ignore) c = 0) ∧
      ((tpOf (keptPairs pred gt ignore) c : ℤ) +
            falseNegative (keptPairs pred gt ignore) c = 0 →
          recallOf (keptPairs pred gt ignore) c = 0) ∧
      (compute_metrics pred gt ignore).precision_per_class =
        (classUniverse (keptPairs pred gt ignore)).map
          (precisionOf (keptPairs pred gt ignore)) ∧
      (compute_metrics pred gt ignore).recall_per_class =
        (classUniverse (keptPairs pred gt ignore)).map
          (recallOf (keptPairs pred gt ignore)) := by
  refine ⟨fun h => ?_, fun h => ?_, rfl, rfl⟩
  · rw [precisionOf, if_neg (by omega)]
  · rw [recallOf, if_neg (by omega)]

/-- Witness for C7: on `pred = [0]`, `gt = [0]`, class `5` has
`tp + fp = 0` and `tp + fn = 0`, and both reported values are zero. -/
theorem C7_zero_denominators_witness :
    precisionOf (keptPairs [0] [0] (-100)) 5 = 0 ∧
      recallOf (keptPairs [0] [0] (-100)) 5 = 0 :=
  ⟨(C7_zero_denominators [0] [0] (-100) 5).1 (by decide),
    (C7_zero_denominators [0] [0] (-100) 5).2.1 (by decide)⟩

/-- C9: the per-class accuracy vector returned by `compute_metrics` is
element-wise equal to the per-class recall vector: both are
`tp / np.sum(gt_cls)` with zero when the class has no ground-truth pixels,
because `fn = np.sum(gt_cls) - tp`. -/
theorem C9_acc_eq_recall (pred gt : List ℤ) (ignore : ℤ) :
    (compute_metrics pred gt ignore).acc_per_class =
      (compute_metrics pred gt ignore).recall_per_class := by
  show (classUniverse _).map _ = (classUniverse _).map _
  exact List.map_congr_left fun c _ => accOf_eq_recallOf _ c

/-! ### C2 -/

/-- C2 counterexample: with `pred_mask = [0]` and `gt_mask = [-100]` every
ground-truth pixel equals the ignore value `-100`, and the overall accuracy
computed on line 279 of run.py is `0/0`, i.e. NaN (modelled `none`) — not a
defined value as the claim states. -/
theorem C2_counterexample :
    (∀ x ∈ ([-100] : List ℤ), x = -100) ∧
      (compute_metrics [0] [-100] (-100)).acc = none ∧
      ¬ ((compute_metrics [0] [-100] (-100)).acc).isSome := by
  have h : (compute_metrics [0] [-100] (-100)).acc = none := rfl
  exact ⟨by decide, h, by rw [h]; simp⟩

/-- C2 amended: when every ground-truth pixel equals the ignore value the
metric computation still returns (numpy only warns on `0/0`, it does not
raise): the class universe is empty, all four per-class vectors are empty and
the mean IoU is `0.0` — but the overall accuracy is NaN (modelled `none`),
not a defined number. -/
theorem C2_all_ignored (pred gt : List ℤ) (ignore : ℤ)
    (h : ∀ x ∈ gt, x = ignore) :
    classUniverse (keptPairs pred gt ignore) = [] ∧
      (compute_metrics pred gt ignore).acc_per_class = [] ∧
      (compute_metrics pred gt ignore).iou_per_class = [] ∧
      (compute_metrics pred gt ignore).precision_per_class = [] ∧
      (compute_metrics pred gt ignore).recall_per_class = [] ∧
      (compute_metrics pred gt ignore).iou = 0 ∧
      (compute_metrics pred gt ignore).acc = none := by
  have hk : keptPairs pred gt ignore = [] := keptPairs_all_ignored pred gt ignore h
  have hcu : classUniverse (keptPairs pred gt ignore) = [] := by
    rw [hk]; rfl
  refine ⟨hcu, ?_, ?_, ?_, ?_, ?_, ?_⟩
  · show (classUniverse _).map _ = []
    rw [hcu]; rfl
  · show iouPerClass _ = []
    rw [iouPerClass, hcu]; rfl
  · show (classUniverse _).map _ = []
    rw [hcu]; rfl
  · show (classUniverse _).map _ = []
    rw [hcu]; rfl
  · show (if iouPerClass _ = [] then (0 : ℚ) else _) = 0
    rw [iouPerClass, hcu]; rfl
  · show npDiv _ (keptPairs pred gt ignore).length = none
    rw [hk]; rfl

/-- Witness for C2's amended theorem at `pred = [0]`, `gt = [-100]`,
`ignore = -100`. -/
theorem C2_all_ignored_witness :
    classUniverse (keptPairs [0] [-100] (-100)) = [] ∧
      (compute_metrics [0] [-100] (-100)).acc_per_class = [] ∧
      (compute_metrics [0] [-100] (-100)).iou_per_class = [] ∧
      (compute_metrics [0] [-100] (-100)).precision_per_class = [] ∧
      (compute_metrics [0] [-100] (-100)).recall_per_class = [] ∧
      (compute_metrics [0] [-100] (-100)).iou = 0 ∧
      (compute_metrics [0] [-100] (-100)).acc = none :=
  C2_all_ignored [0] [-100] (-100) (by decide)

/-! ### C5 -/

/-- C5: for same-length masks with at least one non-ignored ground-truth
pixel, the reported overall accuracy is the single global ratio: the number
of non-ignored pixels where prediction equals ground truth, divided by the
total number of non-ignored pixels. -/
theorem C5_overall_accuracy (pred gt : List ℤ) (ignore : ℤ)
    (hlen : pred.length = gt.length) (h : ∃ x ∈ gt, x ≠ ignore) :
    (compute_metrics pred gt ignore).acc =
      some
        (((pred.zip gt).countP (fun pg => pg.2 ≠ ignore ∧ pg.1 = pg.2) : ℚ) /
          (gt.countP (fun x => x ≠ ignore) : ℚ)) := by
  have hsnd : (pred.zip gt).map Prod.snd = gt :=
    List.map_snd_zip pred gt (le_of_eq hlen.symm)
  have hlenpairs :
      (keptPairs pred gt ignore).length = gt.countP (fun x => x ≠ ignore) := by
    rw [keptPairs, ← List.countP_eq_length_filter]
    conv_rhs => rw [← hsnd, List.countP_map]
    rfl
  have hnum :
      (keptPairs pred gt ignore).countP (fun pg => pg.1 = pg.2) =
        (pred.zip gt).countP (fun pg => pg.2 ≠ ignore ∧ pg.1 = pg.2) := by
    rw [keptPairs, List.countP_filter]
    refine List.countP_congr fun pg _ => ?_
    simp [Bool.and_comm]
  have hpos : 0 < gt.countP (fun x => x ≠ ignore) := by
    rcases h with ⟨x, hx, hne⟩
    exact List.countP_pos_iff.mpr ⟨x, hx, by simpa using hne⟩
  show npDiv _ _ = _
  rw [npDiv, if_neg (by omega : ¬ (keptPairs pred gt ignore).length = 0),
    hnum, hlenpairs]

/-- Witness for C5 at `pred = [0, 1]`, `gt = [0, -100]`: one kept pixel,
predicted correctly, accuracy `1/1`. -/
theorem C5_overall_accuracy_witness :
    (compute_metrics [0, 1] [0, -100] (-100)).acc =
      some
        ((([(0 : ℤ), 1].zip [(0 : ℤ), -100]).countP
              (fun pg => pg.2 ≠ -100 ∧ pg.1 = pg.2) : ℚ) /
          (([(0 : ℤ), -100]).countP (fun x => x ≠ -100) : ℚ)) :=
  C5_overall_accuracy [0, 1] [0, -100] (-100) (by decide)
    ⟨0, by decide, by decide⟩

/-! ### C4 -/

theorem tpOf_diag (m : List ℤ) (c : ℤ) :
    tpOf (m.map fun x => (x, x)) c = m.countP (fun x => x = c) := by
  rw [tpOf, List.countP_map]
  refine List.countP_congr fun x _ => ?_
  simp [Function.comp]

theorem predCount_diag (m : List ℤ) (c : ℤ) :
    predCount (m.map fun x => (x, x)) c = m.countP (fun x => x = c) := by
  rw [predCount, List.countP_map]
  exact List.countP_congr fun x _ => by simp [Function.comp]

theorem gtCount_diag (m : List ℤ) (c : ℤ) :
    gtCount (m.map fun x => (x, x)) c = m.countP (fun x => x = c) := by
  rw [gtCount, List.countP_map]
  exact List.countP_congr fun x _ => by simp [Function.comp]

theorem unionOf_diag (m : List ℤ) (c : ℤ) :
    unionOf (m.map fun x => (x, x)) c = m.countP (fun x => x = c) := by
  rw [unionOf, List.countP_map]
  exact List.countP_congr fun x _ => by simp [Function.comp]

theorem mem_of_mem_classUniverse_diag {m : List ℤ} {c : ℤ}
    (h : c ∈ classUniverse (m.map fun x => (x, x))) : c ∈ m := by
  rcases mem_classUniverse.mp h with h | h <;>
  · rw [List.map_map] at h
    rcases List.mem_map.mp h with ⟨x, hx, rfl⟩
    exact hx

/-- C4: when the prediction equals the ground truth at every pixel and no
pixel carries the ignore value, every class present has
`false_positive = false_negative = 0`, and the reported IoU, accuracy,
precision and recall vectors are constant `1`. -/
theorem C4_perfect_prediction (m : List ℤ) (ignore : ℤ)
    (h : ∀ x ∈ m, x ≠ ignore) :
    (∀ c ∈ classUniverse (keptPairs m m ignore),
        falsePositive (keptPairs m m ignore) c = 0 ∧
          falseNegative (keptPairs m m ignore) c = 0 ∧
          iouOf (keptPairs m m ignore) c = 1 ∧
          accOf (keptPairs m m ignore) c = 1 ∧
          precisionOf (keptPairs m m ignore) c = 1 ∧
          recallOf (keptPairs m m ignore) c = 1) ∧
      (compute_metrics m m ignore).iou_per_class =
        List.replicate (classUniverse (keptPairs m m ignore)).length 1 ∧
      (compute_metrics m m ignore).acc_per_class =
        List.replicate (classUniverse (keptPairs m m ignore)).length 1 ∧
      (compute_metrics m m ignore).precision_per_class =
        List.replicate (classUniverse (keptPairs m m ignore)).length 1 ∧
      (compute_metrics m m ignore).recall_per_class =
        List.replicate (classUniverse (keptPairs m m ignore)).length 1 := by
  have hk : keptPairs m m ignore = m.map (fun x => (x, x)) :=
    keptPairs_self m ignore h
  have key : ∀ c ∈ classUniverse (keptPairs m m ignore),
      falsePositive (keptPairs m m ignore) c = 0 ∧
        falseNegative (keptPairs m m ignore) c = 0 ∧
        iouOf (keptPairs m m ignore) c = 1 ∧
        accOf (keptPairs m m ignore) c = 1 ∧
        precisionOf (keptPairs m m ignore) c = 1 ∧
        recallOf (keptPairs m m ignore) c = 1 := by
    intro c hc
    rw [hk] at hc ⊢
    have hcm : c ∈ m := mem_of_mem_classUniverse_diag hc
    have hd : 0 < m.countP (fun x => x = c) :=
      List.countP_pos_iff.mpr ⟨c, hcm, by simp⟩
    have hdq : (m.countP (fun x => x = c) : ℚ) ≠ 0 :=
      Nat.cast_ne_zero.mpr (by omega)
    refine ⟨?_, ?_, ?_, ?_, ?_, ?_⟩
    · rw [falsePositive, predCount_diag, tpOf_diag]; ring
    · rw [falseNegative, gtCount_diag, tpOf_diag]; ring
    · rw [iouOf, tpOf_diag, unionOf_diag, div_self hdq]
    · rw [accOf, gtCount_diag, if_pos hd, tpOf_diag, div_self hdq]
    · have hpos : 0 < (tpOf (m.map fun x => (x, x)) c : ℤ) +
          falsePositive (m.map fun x => (x, x)) c := by
        rw [tp_add_fp, predCount_diag]; exact_mod_cast hd
      rw [precisionOf, if_pos hpos, tp_add_fp, predCount_diag, tpOf_diag]
      push_cast
      exact div_self hdq
    · have hpos : 0 < (tpOf (m.map fun x => (x, x)) c : ℤ) +
          falseNegative (m.map fun x => (x, x)) c := by
        rw [tp_add_fn, gtCount_diag]; exact_mod_cast hd
      rw [recallOf, if_pos hpos, tp_add_fn, gtCount_diag, tpOf_diag]
      push_cast
      exact div_self hdq
  refine ⟨key, ?_, ?_, ?_, ?_⟩
  · show iouPerClass (keptPairs m m ignore) = _
    rw [iouPerClass_eq_map]
    exact List.eq_replicate_iff.mpr
      ⟨List.length_map _ _, fun b hb => by
        rcases List.mem_map.mp hb with ⟨c, hc, rfl⟩
        exact (key c hc).2.2.1⟩
  · show (classUniverse (keptPairs m m ignore)).map _ = _
    exact List.eq_replicate_iff.mpr
      ⟨List.length_map _ _, fun b hb => by
        rcases List.mem_map.mp hb with ⟨c, hc, rfl⟩
        exact (key c hc).2.2.2.1⟩
  · show (classUniverse (keptPairs m m ignore)).map _ = _
    exact List.eq_replicate_iff.mpr
      ⟨List.length_map _ _, fun b hb => by
        rcases List.mem_map.mp hb with ⟨c, hc, rfl⟩
        exact (key c hc).2.2.2.2.1⟩
  · show (classUniverse (keptPairs m m ignore)).map _ = _
    exact List.eq_replicate_iff.mpr
      ⟨List.length_map _ _, fun b hb => by
        rcases List.mem_map.mp hb with ⟨c, hc, rfl⟩
        exact (key c hc).2.2.2.2.2⟩

/-- Witness for C4 at `m = [0, 1, 1]`, `ignore = -100`. -/
theorem C4_perfect_prediction_witness :
    (compute_metrics [0, 1, 1] [0, 1, 1] (-100)).iou_per_class =
        List.replicate
          (classUniverse (keptPairs [0, 1, 1] [0, 1, 1] (-100))).length 1 ∧
      (compute_metrics [0, 1, 1] [0, 1, 1] (-100)).acc_per_class =
        List.replicate
          (classUniverse (keptPairs [0, 1, 1] [0, 1, 1] (-100))).length 1 :=
  ⟨(C4_perfect_prediction [0, 1, 1] (-100) (by decide)).2.1,
    (C4_perfect_prediction [0, 1, 1] (-100) (by decide)).2.2.1⟩

/-! ### C10 -/

/-- C10: with at least one non-ignored pixel, the four per-class vectors all
have the same length — the number of distinct classes in the union universe —
and each is the pointwise image of the class universe, which is strictly
ascending (so the vectors are indexed by class values in ascending numerical
order). -/
theorem C10_vector_shape (pred gt : List ℤ) (ignore : ℤ)
    (h : ∃ x ∈ gt, x ≠ ignore) :
    (compute_metrics pred gt ignore).iou_per_class.length =
        (classUniverse (keptPairs pred gt ignore)).length ∧
      (compute_metrics pred gt ignore).acc_per_class.length =
        (classUniverse (keptPairs pred gt ignore)).length ∧
      (compute_metrics pred gt ignore).precision_per_class.length =
        (classUniverse (keptPairs pred gt ignore)).length ∧
      (compute_metrics pred gt ignore).recall_per_class.length =
        (classUniverse (keptPairs pred gt ignore)).length ∧
      (classUniverse (keptPairs pred gt ignore)).Sorted (· < ·) ∧
      (classUniverse (keptPairs pred gt ignore)).Nodup ∧
      (compute_metrics pred gt ignore).iou_per_class =
        (classUniverse (keptPairs pred gt ignore)).map
          (iouOf (keptPairs pred gt ignore)) ∧
      (compute_metrics pred gt ignore).acc_per_class =
        (classUniverse (keptPairs pred gt ignore)).map
          (accOf (keptPairs pred gt ignore)) ∧
      (compute_metrics pred gt ignore).precision_per_class =
        (classUniverse (keptPairs pred gt ignore)).map
          (precisionOf (keptPairs pred gt ignore)) ∧
      (compute_metrics pred gt ignore).recall_per_class =
        (classUniverse (keptPairs pred gt ignore)).map
          (recallOf (keptPairs pred gt ignore)) := by
  have hiou : (compute_metrics pred gt ignore).iou_per_class =
      (classUniverse (keptPairs pred gt ignore)).map
        (iouOf (keptPairs pred gt ignore)) := by
    show iouPerClass _ = _
    exact iouPerClass_eq_map _
  refine ⟨?_, List.length_map _ _, List.length_map _ _, List.length_map _ _,
    sorted_lt_npUnique _, nodup_npUnique _, hiou, rfl, rfl, rfl⟩
  rw [hiou]; exact List.length_map _ _

/-- Witness for C10 at `pred = [1, 0]`, `gt = [0, 0]`, `ignore = -100`. -/
theorem C10_vector_shape_witness :
    (compute_metrics [1, 0] [0, 0] (-100)).iou_per_class.length =
        (classUniverse (keptPairs [1, 0] [0, 0] (-100))).length ∧
      (classUniverse (keptPairs [1, 0] [0, 0] (-100))).Sorted (· < ·) :=
  ⟨(C10_vector_shape [1, 0] [0, 0] (-100) ⟨0, by decide, by decide⟩).1,
    (C10_vector_shape [1, 0] [0, 0] (-100)
      ⟨0, by decide, by decide⟩).2.2.2.2.1⟩

/-! ### C1 -/

/-- C1 counterexample: at `pred_mask = [0, 1]`, `gt_mask = [0, 0]`,
`ignore = -100`, class `1` has zero ground-truth pixels and appears in the
prediction, yet its IoU (`0`) is NOT excluded: `iou_per_class = [1/2, 0]` and
the mean IoU is `(1/2 + 0)/2 = 1/4`, not the `1/2` that exclusion would
give.  (Its per-class accuracy is `0`, as the claim says.) -/
theorem C1_counterexample :
    gtCount (keptPairs [0, 1] [0, 0] (-100)) 1 = 0 ∧
      0 < predCount (keptPairs [0, 1] [0, 0] (-100)) 1 ∧
      (1 : ℤ) ∈ classUniverse (keptPairs [0, 1] [0, 0] (-100)) ∧
      (compute_metrics [0, 1] [0, 0] (-100)).iou_per_class = [1/2, 0] ∧
      (compute_metrics [0, 1] [0, 0] (-100)).iou = 1/4 ∧
      (compute_metrics [0, 1] [0, 0] (-100)).iou ≠ 1/2 ∧
      (compute_metrics [0, 1] [0, 0] (-100)).acc_per_class = [1/2, 0] := by
  have hioul : (compute_metrics [0, 1] [0, 0] (-100)).iou_per_class =
      [1/2, 0] := by
    norm_num [compute_metrics, iouPerClass, iouOf, classUniverse, keptPairs,
      npUnique, sortInts, insertSorted, tpOf, unionOf, List.countP,
      List.countP.go, List.filterMap_cons]
  have hiou : (compute_metrics [0, 1] [0, 0] (-100)).iou = 1/4 := by
    norm_num [compute_metrics, iouPerClass, iouOf, classUniverse, keptPairs,
      npUnique, sortInts, insertSorted, tpOf, unionOf, List.countP,
      List.countP.go, List.filterMap_cons, List.sum_cons]
    simp
  refine ⟨by decide, by decide, by decide, hioul, hiou, ?_, ?_⟩
  · rw [hiou]; norm_num
  · norm_num [compute_metrics, accOf, gtCount, tpOf, classUniverse, keptPairs,
      npUnique, sortInts, insertSorted, List.countP, List.countP.go]

/-- C1 amended: if a class of the universe has zero ground-truth pixels (so
it appears in the prediction), the `np.any(union)` guard still passes, its
IoU is `0` and is INCLUDED in `iou_per_class` (hence counted as zero in the
mean-IoU average); its per-class accuracy is reported as zero. -/
theorem C1_zero_gt_class (pred gt : List ℤ) (ignore c : ℤ)
    (hmem : c ∈ classUniverse (keptPairs pred gt ignore))
    (hzero : gtCount (keptPairs pred gt ignore) c = 0) :
    0 < unionOf (keptPairs pred gt ignore) c ∧
      iouOf (keptPairs pred gt ignore) c = 0 ∧
      accOf (keptPairs pred gt ignore) c = 0 ∧
      (compute_metrics pred gt ignore).iou_per_class =
        (classUniverse (keptPairs pred gt ignore)).map
          (iouOf (keptPairs pred gt ignore)) ∧
      (compute_metrics pred gt ignore).acc_per_class =
        (classUniverse (keptPairs pred gt ignore)).map
          (accOf (keptPairs pred gt ignore)) := by
  have htp : tpOf (keptPairs pred gt ignore) c = 0 := by
    have hle : tpOf (keptPairs pred gt ignore) c ≤
        gtCount (keptPairs pred gt ignore) c := by
      refine List.countP_mono_left fun pg _ h => ?_
      simpa using (of_decide_eq_true h).2
    omega
  refine ⟨unionOf_pos_of_mem hmem, ?_, ?_, ?_, rfl⟩
  · rw [iouOf, htp]
    norm_num
  · rw [accOf, hzero, if_neg (lt_irrefl 0)]
  · show iouPerClass _ = _
    exact iouPerClass_eq_map _

/-- Witness for C1's amended theorem at `pred = [0, 1]`, `gt = [0, 0]`,
class `1`. -/
theorem C1_zero_gt_class_witness :
    0 < unionOf (keptPairs [0, 1] [0, 0] (-100)) 1 ∧
      iouOf (keptPairs [0, 1] [0, 0] (-100)) 1 = 0 ∧
      accOf (keptPairs [0, 1] [0, 0] (-100)) 1 = 0 ∧
      (compute_metrics [0, 1] [0, 0] (-100)).iou_per_class =
        (classUniverse (keptPairs [0, 1] [0, 0] (-100))).map
          (iouOf (keptPairs [0, 1] [0, 0] (-100))) ∧
      (compute_metrics [0, 1] [0, 0] (-100)).acc_per_class =
        (classUniverse (keptPairs [0, 1] [0, 0] (-100))).map
          (accOf (keptPairs [0, 1] [0, 0] (-100))) :=
  C1_zero_gt_class [0, 1] [0, 0] (-100) 1 (by decide) (by decide)

/-! ### C3 -/

/-- C3: the spec's end-to-end scenario `gt_mask = [[0,0],[1,1]]`,
`pred_mask = [[0,1],[1,1]]`, `ignore_value = -100` (row-major flattened):
class 0 has TP=1, FP=0, FN=1; class 1 has TP=2, FP=1, FN=0;
IoU(0)=1/2, IoU(1)=2/3; overall accuracy 3/4. -/
theorem C3_end_to_end :
    tpOf (keptPairs [0, 1, 1, 1] [0, 0, 1, 1] (-100)) 0 = 1 ∧
      falsePositive (keptPairs [0, 1, 1, 1] [0, 0, 1, 1] (-100)) 0 = 0 ∧
      falseNegative (keptPairs [0, 1, 1, 1] [0, 0, 1, 1] (-100)) 0 = 1 ∧
      tpOf (keptPairs [0, 1, 1, 1] [0, 0, 1, 1] (-100)) 1 = 2 ∧
      falsePositive (keptPairs [0, 1, 1, 1] [0, 0, 1, 1] (-100)) 1 = 1 ∧
      falseNegative (keptPairs [0, 1, 1, 1] [0, 0, 1, 1] (-100)) 1 = 0 ∧
      iouOf (keptPairs [0, 1, 1, 1] [0, 0, 1, 1] (-100)) 0 = 1/2 ∧
      iouOf (keptPairs [0, 1, 1, 1] [0, 0, 1, 1] (-100)) 1 = 2/3 ∧
      (compute_metrics [0, 1, 1, 1] [0, 0, 1, 1] (-100)).iou_per_class =
        [1/2, 2/3] ∧
      (compute_metrics [0, 1, 1, 1] [0, 0, 1, 1] (-100)).acc = some (3/4) := by
  refine ⟨by decide, by decide, by decide, by decide, by decide, by decide,
    ?_, ?_, ?_, rfl⟩
  · norm_num [iouOf, tpOf, unionOf, keptPairs, List.countP, List.countP.go]
  · norm_num [iouOf, tpOf, unionOf, keptPairs, List.countP, List.countP.go]
  · norm_num [compute_metrics, iouPerClass, iouOf, classUniverse, keptPairs,
      npUnique, sortInts, insertSorted, tpOf, unionOf, List.countP,
      List.countP.go, List.filterMap_cons]

/-! ### C8 -/

/-- C8: in the sliding-inference branch, a written output pixel is NaN
(`none`) exactly when some channel of the loaded tile equals the configured
no-data value at that pixel, and otherwise carries the stitched prediction
value unchanged. -/
theorem C8_nan_masking (tilePixels : List (List ℤ)) (noData : ℤ)
    (prediction : List ℚ) (i : ℕ)
    (hlen : tilePixels.length = prediction.length)
    (hi : i < prediction.length) :
    (maskPrediction tilePixels noData prediction).length = prediction.length ∧
      (maskPrediction tilePixels noData prediction).getD i none =
        (if (tilePixels.getD i []).any (fun v => v = noData) then none
         else some (prediction.getD i 0)) := by
  have hm : (nanMask tilePixels noData).length = prediction.length := by
    rw [nanMask, List.length_map, hlen]
  have hit : i < tilePixels.length := by omega
  have him : i < (nanMask tilePixels noData).length := by omega
  constructor
  · rw [maskPrediction, List.length_zipWith, hm, Nat.min_self]
  · rw [maskPrediction, List.getD_eq_getElem?_getD, List.getElem?_zipWith,
      List.getElem?_eq_getElem him, List.getElem?_eq_getElem hi]
    show Option.getD
        (some (if (nanMask tilePixels noData)[i] = true then none
          else some prediction[i])) none = _
    rw [Option.getD_some]
    have h1 : (nanMask tilePixels noData)[i] =
        (tilePixels.get ⟨i, hit⟩).any (fun v => v = noData) :=
      List.getElem_map _
    have h2 : tilePixels.getD i [] = tilePixels.get ⟨i, hit⟩ := by
      rw [List.getD_eq_getElem?_getD, List.getElem?_eq_getElem hit,
        Option.getD_some, List.get_eq_getElem]
    have h3 : prediction.getD i 0 = prediction[i] := by
      rw [List.getD_eq_getElem?_getD, List.getElem?_eq_getElem hi,
        Option.getD_some]
    rw [h1, h2, h3]

/-- Witness for C8: a two-pixel tile whose first pixel has a no-data channel
and whose second does not; the output is `[none, some (1/3)]`. -/
theorem C8_nan_masking_witness :
    (maskPrediction [[5], [0]] 5 [1/2, 1/3]).length = 2 ∧
      (maskPrediction [[5], [0]] 5 [1/2, 1/3]).getD 0 none =
        (if (([[5], [0]] : List (List ℤ)).getD 0 []).any (fun v => v = 5)
         then none else some (([1/2, 1/3] : List ℚ).getD 0 0)) ∧
      (maskPrediction [[5], [0]] 5 [1/2, 1/3]).getD 1 none =
        (if (([[5], [0]] : List (List ℤ)).getD 1 []).any (fun v => v = 5)
         then none else some (([1/2, 1/3] : List ℚ).getD 1 0)) :=
  ⟨(C8_nan_masking [[5], [0]] 5 [1/2, 1/3] 0 (by decide) (by decide)).1,
    (C8_nan_masking [[5], [0]] 5 [1/2, 1/3] 0 (by decide) (by decide)).2,
    (C8_nan_masking [[5], [0]] 5 [1/2, 1/3] 1 (by decide) (by decide)).2⟩

end InstaGeo
